import Mathlib

/-!
Verification of the PRNG library (PRNG.h): a seedable xorshift1024* generator
with rejection-sampled bounded integer draws and epsilon-scaled floating draws.

The C++ class is embedded shallowly:
* 64-bit unsigned words become `Nat` with explicit `% 2^64` where overflow matters;
* signed w-bit values become `Int` together with the two's-complement wrap
  `wrapS w` applied exactly where the C++ arithmetic wraps;
* the 16-word state array becomes a `List Nat` accessed with `List.getD`;
* the rejection loop in `getRandomUint64` takes explicit fuel and returns
  an `RngRes`, whose `trap` constructor models a failed `assert`;
* `float`/`double`/`long double` values become `ℚ`, parameterised by the
  type's mantissa digit count (24 / 53 / 64); on the no-argument path the C++
  computation is exact, so no rounding is lost by this embedding.
-/

namespace PRNGModel

/-- The 64-bit wraparound modulus. -/
def U64 : Nat := 2 ^ 64

/-- Generator instance: `std::array<uint64_t, 16> state` and
`unsigned long position`.  State words are `Nat` (kept below `2^64` by the
operations), the cursor is a `Nat`. -/
structure PRNG where
  state : List Nat
  position : Nat
deriving DecidableEq, Repr

/-- Well-formedness of a generator: the state array has exactly 16 words and
the cursor is a valid index. -/
def WF (g : PRNG) : Prop := g.state.length = 16 ∧ g.position < 16

instance (g : PRNG) : Decidable (WF g) := by unfold WF; infer_instance

/-- Constructor `PRNG(const std::array<uint64_t, 16> &seed) : state(seed), position(0)`. -/
def mkPRNG (seed : List Nat) : PRNG := ⟨seed, 0⟩

/-- Method `setSeed(seed)`: the body is exactly `state = seed;` — nothing else. -/
def setSeed (seed : List Nat) (g : PRNG) : PRNG := ⟨seed, g.position⟩

/-- Method `getState()`: returns the internal state array. -/
def getState (g : PRNG) : List Nat := g.state

/-- Modelled from the spec: the default constructor `PRNG()`.  The entropy
source (`std::random_device`, outside the spec's scope) is abstracted as
a map delivering one 64-bit word per state slot; the constructor fills the 16
words from it and sets `position` to 0. -/
def mkDefaultPRNG (entropy : Fin 16 → Nat) : PRNG :=
  ⟨List.ofFn (fun i => entropy i % U64), 0⟩

/-- The xorshift1024* step (`uint64_t xorshift1024()`):
reads `state[position]`, advances `position` mod 16, mixes with
`state[position]` via shifts 31/11/30, stores the mix back at the new
position and returns it scaled by the odd constant, wrapping at 64 bits. -/
def xorshift1024 (g : PRNG) : Nat × PRNG :=
  let state0 := g.state.getD g.position 0
  let p' := (g.position + 1) % 16
  let s1 := g.state.getD p' 0
  let s1a := s1 ^^^ ((s1 <<< 31) % U64)
  let state1 := s1a ^^^ (s1a >>> 11)
  let state0' := state0 ^^^ (state0 >>> 30)
  let sNew := state0' ^^^ state1
  ((sNew * 1181783497276652981) % U64, ⟨g.state.set p' sNew, p'⟩)

/-- One state transition of the generator. -/
def stepPRNG (g : PRNG) : PRNG := (xorshift1024 g).2

/-- The raw 64-bit value produced by the `(n+1)`-th call to `xorshift1024`. -/
def rawAt (g : PRNG) (n : Nat) : Nat := (xorshift1024 (stepPRNG^[n] g)).1

/-- The list of the first `n` raw draws of a generator. -/
def drawsRaw (g : PRNG) : Nat → List Nat
  | 0 => []
  | n + 1 => (xorshift1024 g).1 :: drawsRaw (xorshift1024 g).2 n

/-- The 64-entry de Bruijn lookup table `clz64Index` of
`countLeadingZeros64`. -/
def clz64Index : List Nat :=
  [63, 16, 62,  7, 15, 36, 61,  3,
    6, 14, 22, 26, 35, 47, 60,  2,
    9,  5, 28, 11, 13, 21, 42, 19,
   25, 31, 34, 40, 46, 52, 59,  1,
   17,  8, 37,  4, 23, 27, 48, 10,
   29, 12, 43, 20, 32, 41, 53, 18,
   38, 24, 49, 30, 44, 33, 54, 39,
   50, 45, 55, 51, 56, 57, 58,  0]

/-- The fill-right cascade of `countLeadingZeros64`: `bitset |= bitset >> 1;`
… `bitset |= bitset >> 32;`. -/
def fillRight (x : Nat) : Nat :=
  let b1 := x ||| (x >>> 1)
  let b2 := b1 ||| (b1 >>> 2)
  let b3 := b2 ||| (b2 >>> 4)
  let b4 := b3 ||| (b3 >>> 8)
  let b5 := b4 ||| (b4 >>> 16)
  b5 ||| (b5 >>> 32)

/-- Function `countLeadingZeros64` — the portable de Bruijn fallback branch:
fill-right, multiply by the de Bruijn constant (wrapping at 64 bits),
take the top 6 bits and look them up in the table. -/
def countLeadingZeros64 (toCount : Nat) : Nat :=
  clz64Index.getD (((fillRight toCount * 0x03f79d71b4cb0a89) % U64) >>> 58) 0

/-- Result of a fallible sampling operation: `trap` models a failed
`assert`, `noFuel` models running out of fuel in the rejection loop. -/
inductive RngRes (α : Type) where
  | trap : RngRes α
  | noFuel : RngRes α
  | ok : α → RngRes α
deriving DecidableEq, Repr

/-- The value delivered by a sampling operation, if any. -/
def RngRes.val? {α : Type} : RngRes (α × PRNG) → Option α
  | .ok (v, _) => some v
  | _ => none

/-- Loop `do { randomInt = xorshift1024() >> leadingZeros; } while(randomInt >
maxValue);` loop of `getRandomUint64`, with explicit fuel. -/
def rejectLoop (maxValue lz : Nat) : Nat → PRNG → Option (Nat × PRNG)
  | 0, _ => none
  | fuel + 1, g =>
    let r := (xorshift1024 g).1 >>> lz
    if r ≤ maxValue then some (r, (xorshift1024 g).2)
    else rejectLoop maxValue lz fuel (xorshift1024 g).2

/-- Method `getRandomUint64(maxValue)`: `assert(maxValue != 0)`, then the rejection
loop folding each raw draw by `countLeadingZeros64 maxValue`. -/
def getRandomUint64 (maxValue : Nat) (fuel : Nat) (g : PRNG) :
    RngRes (Nat × PRNG) :=
  if maxValue = 0 then .trap
  else
    match rejectLoop maxValue (countLeadingZeros64 maxValue) fuel g with
    | some p => .ok p
    | none => .noFuel

/-- Two's-complement wrap of an integer to a signed `w`-bit value
(the value in `[-2^(w-1), 2^(w-1))` congruent to `z` mod `2^w`). -/
def wrapS (w : Nat) (z : Int) : Int :=
  (z + 2 ^ (w - 1)) % 2 ^ w - 2 ^ (w - 1)

/-- The two-bound `getRandomIntType(minValue, maxValue)` for an unsigned
`w`-bit type: `assert(minValue < maxValue)`, `range = maxValue - minValue`
(exact, as `minValue < maxValue`), draw, truncate the draw to `w` bits and
add `minValue` back, wrapping at `w` bits. -/
def getRandomIntTypeU (w : Nat) (minValue maxValue : Nat) (fuel : Nat)
    (g : PRNG) : RngRes (Nat × PRNG) :=
  if minValue < maxValue then
    match getRandomUint64 (maxValue - minValue) fuel g with
    | .ok (r, g') => .ok ((r % 2 ^ w + minValue) % 2 ^ w, g')
    | .trap => .trap
    | .noFuel => .noFuel
  else .trap

/-- The two-bound `getRandomIntType(minValue, maxValue)` for a signed
`w`-bit type whose arithmetic is performed at the promoted width `pw`
(`pw = 32` for `char` and `int`, `pw = 64` for the 64-bit types):
`assert(minValue < maxValue)`; `maxValue - minValue` wraps at width `pw`
and is then converted to `uint64_t` (`% 2^64`); the draw is truncated to a
`w`-bit signed value (`static_cast<T>`), `minValue` is added at width `pw`,
and the sum is converted back to `T` (wrap to `w` bits). -/
def getRandomIntTypeS (w pw : Nat) (minValue maxValue : Int) (fuel : Nat)
    (g : PRNG) : RngRes (Int × PRNG) :=
  if minValue < maxValue then
    match getRandomUint64 (((wrapS pw (maxValue - minValue)) %
        (2 ^ 64 : Int)).toNat) fuel g with
    | .ok (r, g') => .ok (wrapS w (wrapS pw (wrapS w (r : Int) + minValue)), g')
    | .trap => .trap
    | .noFuel => .noFuel
  else .trap

/-- The no-argument `getRandomFloatType<T>()` for a floating type with
`digits` mantissa digits: drop `64 - (digits - 1)` bits of one raw draw and
scale by the machine epsilon `2^(1-digits)`.  Every value produced is exactly
representable in `T`, so `ℚ` loses nothing here. -/
def getRandomFloatType0 (digits : Nat) (g : PRNG) : ℚ × PRNG :=
  let p := xorshift1024 g
  let digitsToKeep := digits - 1
  let digitsToLose := 64 - digitsToKeep
  (((p.1 >>> digitsToLose : Nat) : ℚ) * ((1 : ℚ) / 2 ^ digitsToKeep), p.2)

/-- The single-bound `getRandomFloatType<T>(maxValue)`:
a `[0,1)` draw scaled by `maxValue`. -/
def getRandomFloatType1 (digits : Nat) (maxValue : ℚ) (g : PRNG) : ℚ × PRNG :=
  let p := getRandomFloatType0 digits g
  (p.1 * maxValue, p.2)

/-- The two-bound `getRandomFloatType<T>(minValue, maxValue)`:
`range = abs(maxValue - minValue)`, a `[0, range]` draw shifted by
`minValue`. -/
def getRandomFloatType2 (digits : Nat) (minValue maxValue : ℚ) (g : PRNG) :
    ℚ × PRNG :=
  let p := getRandomFloatType1 digits |maxValue - minValue| g
  (p.1 + minValue, p.2)

/-! ### Basic facts about the raw generator -/

/-- A fixed 16-word seed used for concrete witnesses and counterexamples. -/
def seedW : List Nat := [1, 2, 3, 4, 5, 6, 7, 8, 9, 10, 11, 12, 13, 14, 15, 16]

theorem xorshift1024_lt (g : PRNG) : (xorshift1024 g).1 < U64 :=
  Nat.mod_lt _ (by unfold U64; positivity)

theorem stepPRNG_position (g : PRNG) :
    (stepPRNG g).position = (g.position + 1) % 16 := rfl

theorem stepPRNG_length (g : PRNG) :
    (stepPRNG g).state.length = g.state.length := by
  unfold stepPRNG xorshift1024
  simp

theorem WF_step (g : PRNG) (h : WF g) : WF (stepPRNG g) := by
  obtain ⟨h1, h2⟩ := h
  refine ⟨by rw [stepPRNG_length, h1], ?_⟩
  rw [stepPRNG_position]
  exact Nat.mod_lt _ (by norm_num)

/-! ### Claim C1 : the xorshift1024* step -/

/-- Claim C1: one call to `xorshift1024` advances the cursor to
`(position + 1) mod 16`, both array accesses are in bounds, the word at the
new cursor becomes `(s0 ^ (s0 >> 30)) ^ mix(s1)` where
`mix(s1) = (s1 ^ (s1 << 31)) ^ ((s1 ^ (s1 << 31)) >> 11)` (all other words
unchanged), and the returned value is the freshly stored word multiplied by
`1181783497276652981` under wraparound 64-bit multiplication. -/
theorem xorshift1024_step_spec (g : PRNG) (h : WF g) :
    (xorshift1024 g).2.position = (g.position + 1) % 16
    ∧ (g.state.get? g.position).isSome = true
    ∧ (g.state.get? ((g.position + 1) % 16)).isSome = true
    ∧ (∀ s0 s1, s0 = g.state.getD g.position 0 →
        s1 = g.state.getD ((g.position + 1) % 16) 0 →
        (xorshift1024 g).2.state =
          g.state.set ((g.position + 1) % 16)
            ((s0 ^^^ (s0 >>> 30)) ^^^
              ((s1 ^^^ ((s1 <<< 31) % U64)) ^^^
                ((s1 ^^^ ((s1 <<< 31) % U64)) >>> 11))))
    ∧ (xorshift1024 g).1 =
        ((xorshift1024 g).2.state.getD ((g.position + 1) % 16) 0 *
          1181783497276652981) % U64 := by
  obtain ⟨h1, h2⟩ := h
  have hp' : (g.position + 1) % 16 < g.state.length := by
    rw [h1]; exact Nat.mod_lt _ (by norm_num)
  refine ⟨rfl, ?_, ?_, ?_, ?_⟩
  · rw [List.get?_eq_get (by omega)]; rfl
  · rw [List.get?_eq_get hp']; rfl
  · intro s0 s1 hs0 hs1
    subst hs0; subst hs1
    rfl
  · have key : ∀ (l : List Nat) (i v : Nat), i < l.length →
        ((l.set i v).getD i 0) = v := fun l i v hv => by
      rw [List.getD_eq_get?, List.get?_set_eq_of_lt _ hv, Option.getD_some]
    show (xorshift1024 g).1 =
      ((g.state.set ((g.position + 1) % 16) _).getD ((g.position + 1) % 16) 0 *
        1181783497276652981) % U64
    rw [key _ _ _ hp']
    rfl

/-- Witness for C1 at a concrete well-formed generator. -/
theorem xorshift1024_step_spec_wit :
    WF (mkPRNG seedW)
    ∧ ((xorshift1024 (mkPRNG seedW)).2.position = (0 + 1) % 16
    ∧ ((mkPRNG seedW).state.get? (mkPRNG seedW).position).isSome = true
    ∧ ((mkPRNG seedW).state.get? (((mkPRNG seedW).position + 1) % 16)).isSome = true
    ∧ (∀ s0 s1, s0 = (mkPRNG seedW).state.getD (mkPRNG seedW).position 0 →
        s1 = (mkPRNG seedW).state.getD (((mkPRNG seedW).position + 1) % 16) 0 →
        (xorshift1024 (mkPRNG seedW)).2.state =
          (mkPRNG seedW).state.set (((mkPRNG seedW).position + 1) % 16)
            ((s0 ^^^ (s0 >>> 30)) ^^^
              ((s1 ^^^ ((s1 <<< 31) % U64)) ^^^
                ((s1 ^^^ ((s1 <<< 31) % U64)) >>> 11))))
    ∧ (xorshift1024 (mkPRNG seedW)).1 =
        ((xorshift1024 (mkPRNG seedW)).2.state.getD
            (((mkPRNG seedW).position + 1) % 16) 0 *
          1181783497276652981) % U64) :=
  ⟨by decide, xorshift1024_step_spec (mkPRNG seedW) (by decide)⟩

/-! ### Claim C4 : seed installation -/

/-- Claim C4 (amended): explicit-seed construction copies the seed into the
state and resets the cursor to 0; `setSeed` copies the seed into the state
but leaves the cursor unchanged.  Neither touches the entropy source (both
are pure functions of their arguments). -/
theorem seed_install_spec :
    (∀ seed, getState (mkPRNG seed) = seed ∧ (mkPRNG seed).position = 0)
    ∧ (∀ seed g, getState (setSeed seed g) = seed
        ∧ (setSeed seed g).position = g.position) :=
  ⟨fun _ => ⟨rfl, rfl⟩, fun _ _ => ⟨rfl, rfl⟩⟩

/-- Counterexample to C4 as stated: after one draw the cursor is 1, and
`setSeed` leaves it at 1 instead of resetting it to 0. -/
theorem setSeed_position_cex :
    ¬ ((setSeed seedW (stepPRNG (mkPRNG seedW))).position = 0) := by decide

/-! ### Claim C3 : resuming from a saved state -/

/-- Claim C3 (amended): if the generator's cursor is 0 (as after construction
or any multiple of 16 draws), seeding a fresh generator with `getState g`
reproduces `g`'s subsequent raw draw sequence exactly. -/
theorem getState_resume (g : PRNG) (h : g.position = 0) (n : Nat) :
    drawsRaw (mkPRNG (getState g)) n = drawsRaw g n := by
  obtain ⟨st, p⟩ := g
  simp only at h
  subst h
  rfl

/-- Witness for C3: a freshly seeded generator has cursor 0 and is resumed
exactly by its saved state. -/
theorem getState_resume_wit :
    (mkPRNG seedW).position = 0
    ∧ drawsRaw (mkPRNG (getState (mkPRNG seedW))) 2 = drawsRaw (mkPRNG seedW) 2 :=
  ⟨rfl, getState_resume (mkPRNG seedW) rfl 2⟩

/-- Counterexample to C3 as stated: after a single draw the cursor is 1;
re-seeding with the saved state starts mixing at position 0 and the very
next draw already differs. -/
theorem getState_resume_cex :
    drawsRaw (mkPRNG (getState (stepPRNG (mkPRNG seedW)))) 1
      ≠ drawsRaw (stepPRNG (mkPRNG seedW)) 1 := by decide

/-! ### Claim C9 : determinism -/

/-- Claim C9: the raw draw sequence is a function of the seed alone — any two
generators constructed from the same 16-word seed produce identical sequences
of `n` consecutive draws, for every `n`. -/
theorem fixed_seed_deterministic (seed : List Nat) (n : Nat) (g1 g2 : PRNG)
    (h1 : g1 = mkPRNG seed) (h2 : g2 = mkPRNG seed) :
    drawsRaw g1 n = drawsRaw g2 n := by
  subst h1; subst h2; rfl

/-- Witness for C9 at a concrete seed. -/
theorem fixed_seed_deterministic_wit :
    drawsRaw (mkPRNG seedW) 3 = drawsRaw (mkPRNG seedW) 3 :=
  fixed_seed_deterministic seedW 3 _ _ rfl rfl

/-! ### Claim C10 : the cursor invariant -/

/-- Claim C10: both constructors establish cursor 0 (and well-formedness for
a 16-word seed), `xorshift1024` moves the cursor to `(position + 1) mod 16`
preserving well-formedness, both of its state accesses are in bounds, and
`setSeed` (the only other state-touching operation) does not move the
cursor. -/
theorem position_invariant :
    (∀ seed, (mkPRNG seed).position = 0)
    ∧ (∀ entropy, (mkDefaultPRNG entropy).position = 0)
    ∧ (∀ seed, seed.length = 16 → WF (mkPRNG seed))
    ∧ (∀ g, WF g →
        (xorshift1024 g).2.position = (g.position + 1) % 16
        ∧ WF (xorshift1024 g).2
        ∧ (g.state.get? g.position).isSome = true
        ∧ (g.state.get? ((g.position + 1) % 16)).isSome = true)
    ∧ (∀ seed g, (setSeed seed g).position = g.position) := by
  refine ⟨fun _ => rfl, fun _ => rfl, fun seed hs => ⟨hs, by norm_num [mkPRNG]⟩,
    fun g hg => ⟨rfl, WF_step g hg, ?_, ?_⟩, fun _ _ => rfl⟩
  · rw [List.get?_eq_get (by rw [hg.1]; exact hg.2)]; rfl
  · rw [List.get?_eq_get (by rw [hg.1]; exact Nat.mod_lt _ (by norm_num))]; rfl

/-! ### Claim C6 : the de Bruijn leading-zero count -/

theorem testBit_or_shift (x y : Nat) (j : Nat)
    (hy : ∀ i, y.testBit i = true ↔ ∃ d, d ≤ j ∧ x.testBit (i + d) = true) :
    ∀ i, (y ||| y >>> (j + 1)).testBit i = true ↔
      ∃ d, d ≤ 2 * j + 1 ∧ x.testBit (i + d) = true := by
  intro i
  rw [Nat.testBit_or, Bool.or_eq_true, Nat.testBit_shiftRight]
  constructor
  · rintro (h | h)
    · obtain ⟨d, hd, hbit⟩ := (hy i).mp h
      exact ⟨d, by omega, hbit⟩
    · obtain ⟨d, hd, hbit⟩ := (hy (j + 1 + i)).mp h
      exact ⟨j + 1 + d, by omega,
        by rwa [show i + (j + 1 + d) = j + 1 + i + d by omega]⟩
  · rintro ⟨d, hd, hbit⟩
    by_cases hc : d ≤ j
    · exact Or.inl ((hy i).mpr ⟨d, hc, hbit⟩)
    · refine Or.inr ((hy (j + 1 + i)).mpr ⟨d - (j + 1), by omega, ?_⟩)
      rwa [show j + 1 + i + (d - (j + 1)) = i + d by omega]

/-- Bit `i` of the fill-right cascade is set iff some bit of `x` in the
window `[i, i+63]` is set. -/
theorem fillRight_testBit (x : Nat) :
    ∀ i, (fillRight x).testBit i = true ↔
      ∃ d, d ≤ 63 ∧ x.testBit (i + d) = true := by
  have h0 : ∀ i, x.testBit i = true ↔ ∃ d, d ≤ 0 ∧ x.testBit (i + d) = true := by
    intro i
    constructor
    · intro h; exact ⟨0, Nat.le_refl 0, by simpa using h⟩
    · rintro ⟨d, hd, h⟩
      obtain rfl : d = 0 := by omega
      simpa using h
  have h1 := testBit_or_shift x x 0 h0
  have h2 := testBit_or_shift x _ 1 h1
  have h3 := testBit_or_shift x _ 3 h2
  have h4 := testBit_or_shift x _ 7 h3
  have h5 := testBit_or_shift x _ 15 h4
  have h6 := testBit_or_shift x _ 31 h5
  intro i
  exact h6 i

/-- For nonzero 64-bit `x`, the fill-right cascade yields the all-ones
pattern below and including the most significant set bit. -/
theorem fillRight_eq (x : Nat) (h0 : 0 < x) (h64 : x < 2 ^ 64) :
    fillRight x = 2 ^ (Nat.log2 x + 1) - 1 := by
  have hm : Nat.log2 x ≤ 63 := by
    have := (Nat.log2_lt (by omega)).mpr h64
    omega
  apply Nat.eq_of_testBit_eq
  intro i
  rw [Nat.testBit_two_pow_sub_one]
  by_cases hc : i < Nat.log2 x + 1
  · have hbit : x.testBit (Nat.log2 x) = true := by
      rw [Nat.testBit_to_div_mod]
      have hle := Nat.log2_self_le (by omega : x ≠ 0)
      have hdiv : x / 2 ^ Nat.log2 x = 1 := by
        refine Nat.div_eq_of_lt_le (by rwa [one_mul]) ?_
        rw [Nat.succ_mul, one_mul]
        have hlt := Nat.lt_log2_self (n := x)
        rw [pow_succ, Nat.mul_two] at hlt
        exact hlt
      simp [hdiv]
    have : (fillRight x).testBit i = true :=
      (fillRight_testBit x i).mpr ⟨Nat.log2 x - i, by omega,
        by rwa [show i + (Nat.log2 x - i) = Nat.log2 x by omega]⟩
    rw [this]
    simp [hc]
  · have : (fillRight x).testBit i = false := by
      cases hb : (fillRight x).testBit i
      · rfl
      · obtain ⟨d, hd, hbit⟩ := (fillRight_testBit x i).mp hb
        have hge := Nat.testBit_implies_ge hbit
        have : i + d ≤ Nat.log2 x := (Nat.le_log2 (by omega)).mpr hge
        omega
    rw [this]
    simp [hc]

/-- The de Bruijn multiplication and table lookup decode the all-ones
pattern `2^(m+1) - 1` to `63 - m`, for each of the 64 possible `m`. -/
theorem clz_table : ∀ m, m < 64 →
    clz64Index.getD ((((2 ^ (m + 1) - 1) * 0x03f79d71b4cb0a89) % U64) >>> 58) 0
      = 63 - m := by decide

theorem countLeadingZeros64_eq (x : Nat) (h0 : 0 < x) (h64 : x < U64) :
    countLeadingZeros64 x = 63 - Nat.log2 x := by
  have hm : Nat.log2 x < 64 := (Nat.log2_lt (by omega)).mpr h64
  unfold countLeadingZeros64
  rw [fillRight_eq x h0 h64]
  exact clz_table (Nat.log2 x) hm

/-- Claim C6: for every nonzero 64-bit input, the portable de Bruijn fallback
of `countLeadingZeros64` returns the true number of leading zero bits:
`64 - (⌊log₂ x⌋ + 1)`, equivalently the unique `c` with
`2^(63-c) ≤ x < 2^(64-c)`. -/
theorem countLeadingZeros64_correct (x : Nat) (h0 : x ≠ 0) (h64 : x < 2 ^ 64) :
    countLeadingZeros64 x = 64 - (Nat.log2 x + 1)
    ∧ 2 ^ (63 - countLeadingZeros64 x) ≤ x
    ∧ x < 2 ^ (64 - countLeadingZeros64 x) := by
  have hx : 0 < x := Nat.pos_of_ne_zero h0
  have hm : Nat.log2 x < 64 := (Nat.log2_lt h0).mpr h64
  have heq : countLeadingZeros64 x = 63 - Nat.log2 x :=
    countLeadingZeros64_eq x hx h64
  refine ⟨by omega, ?_, ?_⟩
  · rw [heq, show 63 - (63 - Nat.log2 x) = Nat.log2 x by omega]
    exact Nat.log2_self_le h0
  · rw [heq, show 64 - (63 - Nat.log2 x) = Nat.log2 x + 1 by omega]
    exact Nat.lt_log2_self

/-- Witness for C6 at `x = 1`: sixty-three leading zeros. -/
theorem countLeadingZeros64_correct_wit :
    (1 : Nat) ≠ 0 ∧ (1 : Nat) < 2 ^ 64 ∧ countLeadingZeros64 1 = 63 :=
  ⟨by decide, by norm_num,
    ((countLeadingZeros64_correct 1 (by decide) (by norm_num)).1).trans
      (by norm_num [Nat.log2])⟩

/-! ### Claim C7 : the rejection loop accepts at least half of all draws -/

theorem rejectLoop_total (maxValue lz : Nat) :
    ∀ fuel g, (∃ n, n < fuel ∧ rawAt g n >>> lz ≤ maxValue) →
      ∃ v g', rejectLoop maxValue lz fuel g = some (v, g') := by
  intro fuel
  induction fuel with
  | zero => rintro g ⟨n, hn, _⟩; omega
  | succ fuel ih =>
    rintro g ⟨n, hn, hacc⟩
    by_cases hfirst : (xorshift1024 g).1 >>> lz ≤ maxValue
    · exact ⟨(xorshift1024 g).1 >>> lz, (xorshift1024 g).2,
        by simp only [rejectLoop]; rw [if_pos hfirst]⟩
    · have hn0 : n ≠ 0 := by
        intro h
        subst h
        exact hfirst (by simpa [rawAt] using hacc)
      obtain ⟨k, rfl⟩ : ∃ k, n = k + 1 := ⟨n - 1, by omega⟩
      obtain ⟨v, g', hv⟩ := ih (stepPRNG g) ⟨k, by omega, by
        have hsh : rawAt g (k + 1) = rawAt (stepPRNG g) k := by
          unfold rawAt
          rw [Function.iterate_succ_apply]
        rwa [hsh] at hacc⟩
      refine ⟨v, g', ?_⟩
      simp only [rejectLoop]
      rw [if_neg hfirst]
      exact hv

/-- Claim C7: for every nonzero `maxValue`, at least `2^63` of the `2^64`
possible raw draws are accepted by the rejection loop of `getRandomUint64`
(folded draw `≤ maxValue`); and the loop terminates with an accepted value
whenever some draw within the available fuel is accepted. -/
theorem rejection_accept_half (maxValue : Nat) (h0 : maxValue ≠ 0)
    (h64 : maxValue < U64) :
    2 ^ 63 ≤ ((Finset.range U64).filter
        (fun r => r >>> countLeadingZeros64 maxValue ≤ maxValue)).card
    ∧ (∀ fuel g, (∃ n, n < fuel ∧
          rawAt g n >>> countLeadingZeros64 maxValue ≤ maxValue) →
        ∃ v g', rejectLoop maxValue (countLeadingZeros64 maxValue) fuel g =
          some (v, g')) := by
  refine ⟨?_, rejectLoop_total maxValue (countLeadingZeros64 maxValue)⟩
  have hx : 0 < maxValue := Nat.pos_of_ne_zero h0
  have hm : Nat.log2 maxValue < 64 := (Nat.log2_lt h0).mpr h64
  have hclz : countLeadingZeros64 maxValue = 63 - Nat.log2 maxValue :=
    countLeadingZeros64_eq maxValue hx h64
  have hpow : (0 : Nat) < 2 ^ (63 - Nat.log2 maxValue) := Nat.pos_pow_of_pos _ (by norm_num)
  have hiff : ∀ r, (r >>> (63 - Nat.log2 maxValue) ≤ maxValue) ↔
      r < (maxValue + 1) * 2 ^ (63 - Nat.log2 maxValue) := by
    intro r
    rw [Nat.shiftRight_eq_div_pow]
    constructor
    · intro h
      exact (Nat.div_lt_iff_lt_mul hpow).mp (Nat.lt_succ_of_le h)
    · intro h
      exact Nat.lt_succ_iff.mp ((Nat.div_lt_iff_lt_mul hpow).mpr h)
  have hfilter : (Finset.range U64).filter
      (fun r => r >>> countLeadingZeros64 maxValue ≤ maxValue)
      = Finset.range (min ((maxValue + 1) * 2 ^ (63 - Nat.log2 maxValue)) U64) := by
    ext r
    simp only [Finset.mem_filter, Finset.mem_range, hclz, hiff r, Nat.lt_min]
    tauto
  rw [hfilter, Finset.card_range]
  have hB : 2 ^ 63 ≤ (maxValue + 1) * 2 ^ (63 - Nat.log2 maxValue) := by
    have hle : 2 ^ Nat.log2 maxValue ≤ maxValue := Nat.log2_self_le h0
    calc 2 ^ 63 = 2 ^ Nat.log2 maxValue * 2 ^ (63 - Nat.log2 maxValue) := by
          rw [← pow_add]
          congr 1
          omega
    _ ≤ (maxValue + 1) * 2 ^ (63 - Nat.log2 maxValue) :=
          Nat.mul_le_mul_right _ (by omega)
  have hU : 2 ^ 63 ≤ U64 := by unfold U64; norm_num
  exact le_min hB hU

/-- Witness for C7 at `maxValue = 1`. -/
theorem rejection_accept_half_wit :
    2 ^ 63 ≤ ((Finset.range U64).filter
        (fun r => r >>> countLeadingZeros64 1 ≤ 1)).card :=
  (rejection_accept_half 1 (by decide) (by norm_num [U64])).1

/-! ### Two's-complement wrap arithmetic -/

theorem wrapS_bounds (w : Nat) (hw : 0 < w) (z : Int) :
    -(2 ^ (w - 1) : Int) ≤ wrapS w z ∧ wrapS w z < 2 ^ (w - 1) := by
  unfold wrapS
  have hpos : (0 : Int) < 2 ^ w := by positivity
  have hmod1 : 0 ≤ (z + 2 ^ (w - 1)) % 2 ^ w := Int.emod_nonneg _ (ne_of_gt hpos)
  have hmod2 : (z + 2 ^ (w - 1)) % 2 ^ w < 2 ^ w := Int.emod_lt_of_pos _ hpos
  have h2 : (2 : Int) ^ w = 2 ^ (w - 1) * 2 := by
    rw [← pow_succ]
    congr 1
    omega
  constructor
  · linarith
  · linarith

theorem wrapS_dvd (w : Nat) (z : Int) : (2 ^ w : Int) ∣ (wrapS w z - z) := by
  refine ⟨-((z + 2 ^ (w - 1)) / 2 ^ w), ?_⟩
  unfold wrapS
  rw [Int.emod_def]
  ring

/-- Two integers congruent modulo `n` lying in one window of length `n`
are equal. -/
theorem int_window_eq (n a b c : Int) (hd : n ∣ a - b) (ha1 : c ≤ a)
    (ha2 : a < c + n) (hb1 : c ≤ b) (hb2 : b < c + n) : a = b := by
  obtain ⟨k, hk⟩ := hd
  have hn : 0 < n := by omega
  have h1 : n * k < n := by omega
  have h2 : -n < n * k := by omega
  have hk0 : k = 0 := by
    rcases lt_trichotomy k 0 with hlt | heq | hgt
    · nlinarith
    · exact heq
    · nlinarith
  rw [hk0, mul_zero] at hk
  omega

theorem wrapS_fixed (w : Nat) (hw : 0 < w) (z : Int)
    (h1 : -(2 ^ (w - 1) : Int) ≤ z) (h2 : z < 2 ^ (w - 1)) : wrapS w z = z := by
  have hb := wrapS_bounds w hw z
  have h2w : (2 : Int) ^ w = 2 ^ (w - 1) * 2 := by
    rw [← pow_succ]
    congr 1
    omega
  refine int_window_eq (2 ^ w) _ _ (-(2 ^ (w - 1))) (wrapS_dvd w z) hb.1
    (by linarith [hb.2]) h1 (by linarith)

/-! ### The rejection loop and the assert model -/

theorem rejectLoop_le (maxValue lz : Nat) :
    ∀ fuel g r g', rejectLoop maxValue lz fuel g = some (r, g') → r ≤ maxValue := by
  intro fuel
  induction fuel with
  | zero => intro g r g' h; simp [rejectLoop] at h
  | succ fuel ih =>
    intro g r g' h
    simp only [rejectLoop] at h
    by_cases hc : (xorshift1024 g).1 >>> lz ≤ maxValue
    · rw [if_pos hc] at h
      cases h
      exact hc
    · rw [if_neg hc] at h
      exact ih _ _ _ h

theorem getRandomUint64_le (maxValue fuel : Nat) (g : PRNG) (r : Nat) (g' : PRNG)
    (h : getRandomUint64 maxValue fuel g = .ok (r, g')) : r ≤ maxValue := by
  unfold getRandomUint64 at h
  by_cases h0 : maxValue = 0
  · rw [if_pos h0] at h
    simp at h
  · rw [if_neg h0] at h
    rcases hl : rejectLoop maxValue (countLeadingZeros64 maxValue) fuel g with _ | p
    · rw [hl] at h
      simp at h
    · rw [hl] at h
      simp only [RngRes.ok.injEq] at h
      subst h
      exact rejectLoop_le maxValue (countLeadingZeros64 maxValue) fuel g r g' hl

theorem getRandomUint64_trap_iff (maxValue fuel : Nat) (g : PRNG) :
    getRandomUint64 maxValue fuel g = .trap ↔ maxValue = 0 := by
  unfold getRandomUint64
  by_cases h0 : maxValue = 0
  · simp [h0]
  · rw [if_neg h0]
    rcases hl : rejectLoop maxValue (countLeadingZeros64 maxValue) fuel g with _ | p
    · simp [h0]
    · simp [h0]

theorem getRandomIntTypeU_trap_iff (w minV maxV fuel : Nat) (g : PRNG) :
    getRandomIntTypeU w minV maxV fuel g = .trap ↔ ¬(minV < maxV) := by
  unfold getRandomIntTypeU
  by_cases hlt : minV < maxV
  · rw [if_pos hlt]
    have hne : maxV - minV ≠ 0 := by omega
    rcases hu : getRandomUint64 (maxV - minV) fuel g with _ | _ | p
    · exact absurd ((getRandomUint64_trap_iff _ _ _).mp hu) hne
    · simp [hlt]
    · obtain ⟨r, g'⟩ := p
      simp [hlt]
  · rw [if_neg hlt]
    simp [hlt]

theorem signed_range_pos (w pw : Nat) (hw : 0 < w) (hwpw : w ≤ pw)
    (hpw : pw ≤ 64) (minV maxV : Int) (hmin : -(2 ^ (w - 1) : Int) ≤ minV)
    (hmax : maxV < 2 ^ (w - 1)) (hlt : minV < maxV) :
    ((wrapS pw (maxV - minV)) % (2 ^ 64 : Int)).toNat ≠ 0 := by
  have hpwpos : 0 < pw := by omega
  have hd1 : (1 : Int) ≤ maxV - minV := by omega
  have hmono : (2 : Int) ^ (w - 1) ≤ 2 ^ (pw - 1) :=
    pow_le_pow_right (by norm_num) (by omega)
  have hmono63 : (2 : Int) ^ (pw - 1) ≤ 2 ^ 63 :=
    pow_le_pow_right (by norm_num) (by omega)
  have h2w : (2 : Int) ^ w = 2 ^ (w - 1) * 2 := by
    rw [← pow_succ]
    congr 1
    omega
  have h2pw : (2 : Int) ^ pw = 2 ^ (pw - 1) * 2 := by
    rw [← pow_succ]
    congr 1
    omega
  have hd2 : maxV - minV < 2 ^ pw := by
    have : maxV - minV < 2 ^ (w - 1) * 2 := by linarith
    calc maxV - minV < 2 ^ w := by linarith [h2w]
    _ ≤ 2 ^ pw := pow_le_pow_right (by norm_num) hwpw
  set W := wrapS pw (maxV - minV) with hW
  have hWb := wrapS_bounds pw hpwpos (maxV - minV)
  have hWne : W ≠ 0 := by
    intro h0
    have hdvd := wrapS_dvd pw (maxV - minV)
    rw [← hW, h0, zero_sub, dvd_neg] at hdvd
    have := int_window_eq (2 ^ pw) (maxV - minV) 0 0 (by simpa using hdvd)
      (by omega) (by linarith) le_rfl (by positivity)
    omega
  have hmod1 : 0 ≤ W % (2 ^ 64 : Int) :=
    Int.emod_nonneg _ (by positivity)
  intro htn
  have hmodz : W % (2 ^ 64 : Int) = 0 := by
    have := Int.toNat_of_nonneg hmod1
    omega
  have hdvd64 : (2 ^ 64 : Int) ∣ W := Int.dvd_of_emod_eq_zero hmodz
  have : W = 0 := by
    refine int_window_eq (2 ^ 64) W 0 (-(2 ^ 63)) (by simpa using hdvd64)
      (by linarith [hWb.1]) ?_ (by norm_num) (by norm_num)
    have : W < 2 ^ (pw - 1) := hWb.2
    have h64 : -(2 ^ 63 : Int) + 2 ^ 64 = 2 ^ 63 := by norm_num
    linarith
  exact hWne this

theorem signed_range_val (w pw : Nat) (hw : 0 < w) (hwpw : w ≤ pw)
    (hpw : pw ≤ 64) (minV maxV : Int) (hmin : -(2 ^ (w - 1) : Int) ≤ minV)
    (hmax : maxV < 2 ^ (w - 1)) (hlt : minV < maxV)
    (hcase : maxV - minV < 2 ^ (pw - 1) ∨ (w = 64 ∧ pw = 64)) :
    ((((wrapS pw (maxV - minV)) % (2 ^ 64 : Int)).toNat : Nat) : Int)
      = maxV - minV := by
  have hpwpos : 0 < pw := by omega
  have hd1 : (1 : Int) ≤ maxV - minV := by omega
  have hmono63 : (2 : Int) ^ (pw - 1) ≤ 2 ^ 63 :=
    pow_le_pow_right (by norm_num) (by omega)
  rcases hcase with hA | ⟨hw64, hpw64⟩
  · have hfix : wrapS pw (maxV - minV) = maxV - minV := by
      refine wrapS_fixed pw hpwpos _ ?_ hA
      have : (0 : Int) < 2 ^ (pw - 1) := by positivity
      linarith
    rw [hfix, Int.emod_eq_of_lt (by linarith) (by norm_num at hmono63 ⊢; linarith [hA]),
      Int.toNat_of_nonneg (by linarith)]
  · subst hw64
    subst hpw64
    have hd2 : maxV - minV < 2 ^ 64 := by
      have h2w : (2 : Int) ^ 64 = 2 ^ 63 * 2 := by norm_num
      have hx : maxV < 2 ^ 63 := by simpa using hmax
      have hn : -(2 ^ 63 : Int) ≤ minV := by simpa using hmin
      linarith
    have hdvd := wrapS_dvd 64 (maxV - minV)
    have hcong : wrapS 64 (maxV - minV) % (2 ^ 64 : Int)
        = (maxV - minV) % (2 ^ 64 : Int) := by
      have := Int.emod_emod_of_dvd (wrapS 64 (maxV - minV)) (dvd_refl (2 ^ 64 : Int))
      obtain ⟨k, hk⟩ := hdvd
      have hw' : wrapS 64 (maxV - minV) = maxV - minV + 2 ^ 64 * k := by linarith
      rw [hw', Int.add_mul_emod_self_left]
    rw [hcong, Int.emod_eq_of_lt (by linarith) hd2,
      Int.toNat_of_nonneg (by linarith)]

/-! ### Claim C2 : bounded integer draws stay in range -/

theorem getRandomIntTypeU_mem (w minV maxV fuel : Nat) (g : PRNG) (x : Nat)
    (g' : PRNG) (hmax : maxV < 2 ^ w) (hlt : minV < maxV)
    (h : getRandomIntTypeU w minV maxV fuel g = .ok (x, g')) :
    minV ≤ x ∧ x ≤ maxV := by
  unfold getRandomIntTypeU at h
  rw [if_pos hlt] at h
  rcases hu : getRandomUint64 (maxV - minV) fuel g with _ | _ | p
  · rw [hu] at h
    simp at h
  · rw [hu] at h
    simp at h
  · obtain ⟨r, gr⟩ := p
    rw [hu] at h
    simp only [RngRes.ok.injEq, Prod.mk.injEq] at h
    obtain ⟨hx, _⟩ := h
    have hrle : r ≤ maxV - minV := getRandomUint64_le _ _ _ _ _ hu
    have hmod : r % 2 ^ w = r := Nat.mod_eq_of_lt (by omega)
    rw [← hx, hmod, Nat.mod_eq_of_lt (by omega)]
    omega

theorem getRandomIntTypeS_mem (w pw : Nat) (minV maxV : Int) (fuel : Nat)
    (g : PRNG) (x : Int) (g' : PRNG) (hw : 0 < w) (hwpw : w ≤ pw)
    (hpw : pw ≤ 64) (hmin : -(2 ^ (w - 1) : Int) ≤ minV)
    (hmax : maxV < 2 ^ (w - 1)) (hlt : minV < maxV)
    (hcase : maxV - minV < 2 ^ (pw - 1) ∨ (w = 64 ∧ pw = 64))
    (h : getRandomIntTypeS w pw minV maxV fuel g = .ok (x, g')) :
    minV ≤ x ∧ x ≤ maxV := by
  unfold getRandomIntTypeS at h
  rw [if_pos hlt] at h
  rcases hu : getRandomUint64 ((wrapS pw (maxV - minV)) % (2 ^ 64 : Int)).toNat
      fuel g with _ | _ | p
  · rw [hu] at h
    simp at h
  · rw [hu] at h
    simp at h
  · obtain ⟨r, gr⟩ := p
    rw [hu] at h
    simp only [RngRes.ok.injEq, Prod.mk.injEq] at h
    obtain ⟨hx, _⟩ := h
    have hrle : r ≤ ((wrapS pw (maxV - minV)) % (2 ^ 64 : Int)).toNat :=
      getRandomUint64_le _ _ _ _ _ hu
    have hrval := signed_range_val w pw hw hwpw hpw minV maxV hmin hmax hlt hcase
    have hr : (r : Int) ≤ maxV - minV := by
      calc (r : Int) ≤ (((wrapS pw (maxV - minV)) % (2 ^ 64 : Int)).toNat : Int) := by
            exact_mod_cast hrle
      _ = maxV - minV := hrval
    have hr0 : (0 : Int) ≤ (r : Int) := Int.natCast_nonneg r
    have hA := wrapS_dvd w (r : Int)
    have hB := wrapS_dvd pw (wrapS w (r : Int) + minV)
    have hX := wrapS_dvd w (wrapS pw (wrapS w (r : Int) + minV))
    have hwdvd : (2 ^ w : Int) ∣ (2 ^ pw : Int) := pow_dvd_pow 2 hwpw
    have hchain : (2 ^ w : Int) ∣ (x - ((r : Int) + minV)) := by
      have hsum := dvd_add (dvd_add hX (hwdvd.trans hB)) hA
      have heq : (wrapS w (wrapS pw (wrapS w (r : Int) + minV))
            - wrapS pw (wrapS w (r : Int) + minV))
          + (wrapS pw (wrapS w (r : Int) + minV) - (wrapS w (r : Int) + minV))
          + (wrapS w (r : Int) - (r : Int))
          = x - ((r : Int) + minV) := by
        rw [← hx]
        ring
      rwa [heq] at hsum
    have hxw := wrapS_bounds w hw (wrapS pw (wrapS w (r : Int) + minV))
    have h2w : (2 : Int) ^ w = 2 ^ (w - 1) * 2 := by
      rw [← pow_succ]
      congr 1
      omega
    have hxeq : x = (r : Int) + minV := by
      refine int_window_eq (2 ^ w) x ((r : Int) + minV) (-(2 ^ (w - 1)))
        hchain ?_ ?_ (by linarith) (by linarith)
      · rw [← hx]
        exact hxw.1
      · rw [← hx]
        linarith [hxw.2]
    constructor
    · linarith
    · linarith

/-- Claim C2 (amended): bounded integer draws stay inside `[minValue,
maxValue]` for every unsigned width (whenever `maxValue` fits the width),
for every signed width provided the mathematical span `maxValue - minValue`
fits the promoted arithmetic width (automatic for 8-bit values promoted to
32-bit `int`, and for the 64-bit types), and `getRandomUint64` stays in
`[0, maxValue]` for every `maxValue ≠ 0`. -/
theorem intRange_containment :
    (∀ w minV maxV fuel g x g', maxV < 2 ^ w → minV < maxV →
        getRandomIntTypeU w minV maxV fuel g = .ok (x, g') →
        minV ≤ x ∧ x ≤ maxV)
    ∧ (∀ w pw minV maxV fuel g x g', 0 < w → w ≤ pw → pw ≤ 64 →
        -(2 ^ (w - 1) : Int) ≤ minV → maxV < 2 ^ (w - 1) → minV < maxV →
        (maxV - minV < 2 ^ (pw - 1) ∨ (w = 64 ∧ pw = 64)) →
        getRandomIntTypeS w pw minV maxV fuel g = .ok (x, g') →
        minV ≤ x ∧ x ≤ maxV)
    ∧ (∀ maxV fuel g r g', maxV ≠ 0 →
        getRandomUint64 maxV fuel g = .ok (r, g') → r ≤ maxV) :=
  ⟨fun w minV maxV fuel g x g' hmax hlt h =>
      getRandomIntTypeU_mem w minV maxV fuel g x g' hmax hlt h,
    fun w pw minV maxV fuel g x g' hw hwpw hpw hmin hmax hlt hcase h =>
      getRandomIntTypeS_mem w pw minV maxV fuel g x g' hw hwpw hpw hmin hmax
        hlt hcase h,
    fun maxV fuel g r g' _ h => getRandomUint64_le maxV fuel g r g' h⟩

/-- Witness for C2 with concrete draws from the fixed seed: the 8-bit
unsigned draw in `[1,3]`, the 8-bit signed draw in `[-3,-1]` (promoted width
32), and the raw bounded draw in `[0,2]`. -/
theorem intRange_containment_wit :
    ((getRandomIntTypeU 8 1 3 5 (mkPRNG seedW)).val? = some 1
      ∧ 1 ≤ 1 ∧ 1 ≤ 3)
    ∧ ((getRandomIntTypeS 8 32 (-3) (-1) 5 (mkPRNG seedW)).val? = some (-3)
      ∧ (-3 : Int) ≤ -3 ∧ (-3 : Int) ≤ -1)
    ∧ ((getRandomUint64 2 5 (mkPRNG seedW)).val? = some 0 ∧ 0 ≤ 2) := by
  have hU : getRandomIntTypeU 8 1 3 5 (mkPRNG seedW) =
      .ok (1, ⟨[1, 4297064451, 2148532228, 4, 5, 6, 7, 8,
        9, 10, 11, 12, 13, 14, 15, 16], 2⟩) := by decide
  have hS : getRandomIntTypeS 8 32 (-3) (-1) 5 (mkPRNG seedW) =
      .ok (-3, ⟨[1, 4297064451, 2148532228, 4, 5, 6, 7, 8,
        9, 10, 11, 12, 13, 14, 15, 16], 2⟩) := by decide
  have h64 : getRandomUint64 2 5 (mkPRNG seedW) =
      .ok (0, ⟨[1, 4297064451, 2148532228, 4, 5, 6, 7, 8,
        9, 10, 11, 12, 13, 14, 15, 16], 2⟩) := by decide
  refine ⟨⟨by rw [hU]; rfl, le_rfl,
      (intRange_containment.1 8 1 3 5 (mkPRNG seedW) _ _ (by norm_num)
        (by norm_num) hU).2⟩,
    ⟨by rw [hS]; rfl, le_rfl, ?_⟩,
    ⟨by rw [h64]; rfl,
      intRange_containment.2.2 2 5 (mkPRNG seedW) _ _ (by norm_num) h64⟩⟩
  exact (intRange_containment.2.1 8 32 (-3) (-1) 5 (mkPRNG seedW) _ _
    (by norm_num) (by norm_num) (by norm_num) (by norm_num) (by norm_num)
    (by norm_num) (Or.inl (by norm_num)) hS).2

/-- Counterexample to C2 as stated: for the 32-bit signed type with
`minValue = -2` and `maxValue = 2^31 - 1`, the span `2^31 + 1` overflows the
32-bit intermediate subtraction; with this one-word seed the first draw is
accepted and the returned value is `-7 < minValue`. -/
theorem intRange_containment_cex :
    (getRandomIntTypeS 32 32 (-2) 2147483647 1
        (mkPRNG (3524896708591083370 :: List.replicate 15 0))).val?
      = some (-7)
    ∧ ¬((-2 : Int) ≤ -7 ∧ (-7 : Int) ≤ 2147483647) := by
  constructor
  · decide
  · intro h
    omega

/-! ### Claim C8 : precondition violations trap, valid inputs do not -/

theorem getRandomIntTypeS_trap_iff (w pw : Nat) (minV maxV : Int)
    (fuel : Nat) (g : PRNG) (hw : 0 < w) (hwpw : w ≤ pw) (hpw : pw ≤ 64)
    (hmin : -(2 ^ (w - 1) : Int) ≤ minV) (hmax : maxV < 2 ^ (w - 1)) :
    getRandomIntTypeS w pw minV maxV fuel g = .trap ↔ ¬(minV < maxV) := by
  unfold getRandomIntTypeS
  by_cases hlt : minV < maxV
  · rw [if_pos hlt]
    have hne := signed_range_pos w pw hw hwpw hpw minV maxV hmin hmax hlt
    rcases hu : getRandomUint64 ((wrapS pw (maxV - minV)) % (2 ^ 64 : Int)).toNat
        fuel g with _ | _ | p
    · exact absurd ((getRandomUint64_trap_iff _ _ _).mp hu) hne
    · simp [hlt]
    · obtain ⟨r, g'⟩ := p
      simp [hlt]
  · rw [if_neg hlt]
    simp [hlt]

/-- Claim C8: a sampling operation yields the assert-trap exactly when its
precondition is violated — `maxValue = 0` for the single-bound unsigned
draw, `minValue ≥ maxValue` for the two-bound draws; on inputs satisfying
the preconditions no error branch is reachable (the result is never the
trap). -/
theorem precondition_trap_iff :
    (∀ maxV fuel g, getRandomUint64 maxV fuel g = .trap ↔ maxV = 0)
    ∧ (∀ w minV maxV fuel g,
        getRandomIntTypeU w minV maxV fuel g = .trap ↔ ¬(minV < maxV))
    ∧ (∀ w pw minV maxV fuel g, 0 < w → w ≤ pw → pw ≤ 64 →
        -(2 ^ (w - 1) : Int) ≤ minV → maxV < 2 ^ (w - 1) →
        (getRandomIntTypeS w pw minV maxV fuel g = .trap ↔ ¬(minV < maxV))) :=
  ⟨getRandomUint64_trap_iff,
    getRandomIntTypeU_trap_iff,
    fun w pw minV maxV fuel g hw hwpw hpw hmin hmax =>
      getRandomIntTypeS_trap_iff w pw minV maxV fuel g hw hwpw hpw hmin hmax⟩

/-- Witness for C8: concrete precondition violations trap; a concrete valid
input does not trap. -/
theorem precondition_trap_iff_wit :
    getRandomUint64 0 3 (mkPRNG seedW) = .trap
    ∧ getRandomIntTypeU 8 3 3 3 (mkPRNG seedW) = .trap
    ∧ getRandomIntTypeS 8 32 5 (-5) 3 (mkPRNG seedW) = .trap
    ∧ getRandomUint64 2 5 (mkPRNG seedW) ≠ .trap :=
  ⟨(precondition_trap_iff.1 0 3 (mkPRNG seedW)).mpr rfl,
    (precondition_trap_iff.2.1 8 3 3 3 (mkPRNG seedW)).mpr (by norm_num),
    (precondition_trap_iff.2.2 8 32 5 (-5) 3 (mkPRNG seedW) (by norm_num)
      (by norm_num) (by norm_num) (by norm_num) (by norm_num)).mpr (by norm_num),
    fun h => by
      have := (precondition_trap_iff.1 2 5 (mkPRNG seedW)).mp h
      omega⟩

/-! ### Claim C5 : floating draws stay in their contracted intervals -/

theorem getRandomFloatType0_mem (digits : Nat) (g : PRNG) (h2 : 2 ≤ digits)
    (h65 : digits ≤ 65) :
    0 ≤ (getRandomFloatType0 digits g).1 ∧ (getRandomFloatType0 digits g).1 < 1 := by
  have hr : (xorshift1024 g).1 < 2 ^ 64 := xorshift1024_lt g
  have hshift : (xorshift1024 g).1 >>> (64 - (digits - 1)) < 2 ^ (digits - 1) := by
    rw [Nat.shiftRight_eq_div_pow]
    apply Nat.div_lt_of_lt_mul
    calc (xorshift1024 g).1 < 2 ^ 64 := hr
    _ = 2 ^ (64 - (digits - 1)) * 2 ^ (digits - 1) := by
          rw [← pow_add]
          congr 1
          omega
  have hq : (((xorshift1024 g).1 >>> (64 - (digits - 1)) : Nat) : ℚ)
      < (2 : ℚ) ^ (digits - 1) := by exact_mod_cast hshift
  have hppos : (0 : ℚ) < 2 ^ (digits - 1) := by positivity
  constructor
  · show (0 : ℚ) ≤ (((xorshift1024 g).1 >>> (64 - (digits - 1)) : Nat) : ℚ)
      * ((1 : ℚ) / 2 ^ (digits - 1))
    positivity
  · show (((xorshift1024 g).1 >>> (64 - (digits - 1)) : Nat) : ℚ)
      * ((1 : ℚ) / 2 ^ (digits - 1)) < 1
    rw [mul_one_div, div_lt_one hppos]
    exact hq

theorem getRandomFloatType1_mem_nonneg (digits : Nat) (maxV : ℚ) (g : PRNG)
    (h2 : 2 ≤ digits) (h65 : digits ≤ 65) (hmax : 0 ≤ maxV) :
    0 ≤ (getRandomFloatType1 digits maxV g).1
    ∧ (getRandomFloatType1 digits maxV g).1 ≤ maxV := by
  obtain ⟨hu0, hu1⟩ := getRandomFloatType0_mem digits g h2 h65
  constructor
  · exact mul_nonneg hu0 hmax
  · calc (getRandomFloatType0 digits g).1 * maxV ≤ 1 * maxV :=
        mul_le_mul_of_nonneg_right (le_of_lt hu1) hmax
    _ = maxV := one_mul maxV

theorem getRandomFloatType1_mem_nonpos (digits : Nat) (maxV : ℚ) (g : PRNG)
    (h2 : 2 ≤ digits) (h65 : digits ≤ 65) (hmax : maxV ≤ 0) :
    maxV ≤ (getRandomFloatType1 digits maxV g).1
    ∧ (getRandomFloatType1 digits maxV g).1 ≤ 0 := by
  obtain ⟨hu0, hu1⟩ := getRandomFloatType0_mem digits g h2 h65
  constructor
  · calc maxV = 1 * maxV := (one_mul maxV).symm
    _ ≤ (getRandomFloatType0 digits g).1 * maxV :=
        mul_le_mul_of_nonpos_right (le_of_lt hu1) hmax
  · exact mul_nonpos_of_nonneg_of_nonpos hu0 hmax

theorem getRandomFloatType2_mem (digits : Nat) (minV maxV : ℚ) (g : PRNG)
    (h2 : 2 ≤ digits) (h65 : digits ≤ 65) (hlt : minV < maxV) :
    minV ≤ (getRandomFloatType2 digits minV maxV g).1
    ∧ (getRandomFloatType2 digits minV maxV g).1 ≤ maxV := by
  have habs : |maxV - minV| = maxV - minV := abs_of_pos (by linarith)
  obtain ⟨h1, h2'⟩ := getRandomFloatType1_mem_nonneg digits |maxV - minV| g h2 h65
    (abs_nonneg _)
  rw [habs] at h1 h2'
  constructor
  · show minV ≤ (getRandomFloatType1 digits |maxV - minV| g).1 + minV
    rw [habs]
    linarith
  · show (getRandomFloatType1 digits |maxV - minV| g).1 + minV ≤ maxV
    rw [habs]
    linarith

/-- Claim C5 (amended): the no-argument floating draw equals one raw draw
shifted right by `64 - (digits - 1)` bits and scaled by the machine epsilon
`2^(1-digits)`, and lies in `[0,1)`; the single-bound draw lies between `0`
and `maxValue` — in `[0, maxValue]` when `maxValue ≥ 0` and in
`[maxValue, 0]` when `maxValue ≤ 0`; the two-bound draw with
`minValue < maxValue` lies in `[minValue, maxValue]`.  (`digits` is the
mantissa digit count: 24 for `float`, 53 for `double`, 64 for
`long double`.) -/
theorem floatRange_spec :
    (∀ digits g, 2 ≤ digits → digits ≤ 65 →
        (getRandomFloatType0 digits g).1 =
          (((xorshift1024 g).1 >>> (64 - (digits - 1)) : Nat) : ℚ)
            * ((1 : ℚ) / 2 ^ (digits - 1))
        ∧ 0 ≤ (getRandomFloatType0 digits g).1
        ∧ (getRandomFloatType0 digits g).1 < 1)
    ∧ (∀ digits maxV g, 2 ≤ digits → digits ≤ 65 → 0 ≤ maxV →
        0 ≤ (getRandomFloatType1 digits maxV g).1
        ∧ (getRandomFloatType1 digits maxV g).1 ≤ maxV)
    ∧ (∀ digits maxV g, 2 ≤ digits → digits ≤ 65 → maxV ≤ 0 →
        maxV ≤ (getRandomFloatType1 digits maxV g).1
        ∧ (getRandomFloatType1 digits maxV g).1 ≤ 0)
    ∧ (∀ digits minV maxV g, 2 ≤ digits → digits ≤ 65 → minV < maxV →
        minV ≤ (getRandomFloatType2 digits minV maxV g).1
        ∧ (getRandomFloatType2 digits minV maxV g).1 ≤ maxV) :=
  ⟨fun digits g h2 h65 => ⟨rfl, getRandomFloatType0_mem digits g h2 h65⟩,
    fun digits maxV g h2 h65 hmax =>
      getRandomFloatType1_mem_nonneg digits maxV g h2 h65 hmax,
    fun digits maxV g h2 h65 hmax =>
      getRandomFloatType1_mem_nonpos digits maxV g h2 h65 hmax,
    fun digits minV maxV g h2 h65 hlt =>
      getRandomFloatType2_mem digits minV maxV g h2 h65 hlt⟩

/-- Witness for C5: the first `double` draw from the fixed seed is the
exact dyadic rational `3383621995677311/2^52 ≈ 0.7513`, inside `[0,1)`. -/
theorem floatRange_spec_wit :
    (getRandomFloatType0 53 (mkPRNG seedW)).1
      = (3383621995677311 : ℚ) / 4503599627370496
    ∧ 0 ≤ (getRandomFloatType0 53 (mkPRNG seedW)).1
    ∧ (getRandomFloatType0 53 (mkPRNG seedW)).1 < 1 :=
  ⟨by
    show (((xorshift1024 (mkPRNG seedW)).1 >>> (64 - (53 - 1)) : Nat) : ℚ)
        * ((1 : ℚ) / 2 ^ (53 - 1)) = (3383621995677311 : ℚ) / 4503599627370496
    rw [(by decide : (xorshift1024 (mkPRNG seedW)).1 = 13859315694294268191),
      (by decide : (13859315694294268191 : Nat) >>> (64 - (53 - 1))
        = 3383621995677311)]
    norm_num,
    (floatRange_spec.1 53 (mkPRNG seedW) (by norm_num) (by norm_num)).2⟩

/-- Counterexample to C5 as stated: with a negative single bound the literal
contract `0 ≤ result ≤ maxValue` is unsatisfiable and indeed fails — the
draw is strictly negative. -/
theorem floatRange_cex :
    (getRandomFloatType1 53 (-2) (mkPRNG (1 :: List.replicate 15 0))).1
      = -(288521361639807 : ℚ) / 2251799813685248
    ∧ ¬(0 ≤ (getRandomFloatType1 53 (-2) (mkPRNG (1 :: List.replicate 15 0))).1
        ∧ (getRandomFloatType1 53 (-2) (mkPRNG (1 :: List.replicate 15 0))).1
          ≤ -2) := by
  refine ⟨?_, ?_⟩
  · show (((xorshift1024 (mkPRNG (1 :: List.replicate 15 0))).1 >>>
        (64 - (53 - 1)) : Nat) : ℚ) * ((1 : ℚ) / 2 ^ (53 - 1)) * (-2)
      = -(288521361639807 : ℚ) / 2251799813685248
    rw [(by decide : (xorshift1024 (mkPRNG (1 :: List.replicate 15 0))).1
        = 1181783497276652981),
      (by decide : (1181783497276652981 : Nat) >>> (64 - (53 - 1))
        = 288521361639807)]
    norm_num
  · rintro ⟨hge, hle⟩
    have : (0 : ℚ) ≤ -2 := le_trans hge hle
    norm_num at this

/-- Witness for C10 at a concrete well-formed generator. -/
theorem position_invariant_wit :
    WF (mkPRNG seedW)
    ∧ ((xorshift1024 (mkPRNG seedW)).2.position = ((mkPRNG seedW).position + 1) % 16
        ∧ WF (xorshift1024 (mkPRNG seedW)).2
        ∧ ((mkPRNG seedW).state.get? (mkPRNG seedW).position).isSome = true
        ∧ ((mkPRNG seedW).state.get?
            (((mkPRNG seedW).position + 1) % 16)).isSome = true) :=
  ⟨by decide, position_invariant.2.2.2.1 (mkPRNG seedW) (by decide)⟩

end PRNGModel
